import Mathlib

/-!
Verification of the markup-to-SDF conversion core (`src/lib/adaptors/file.ts`).

The embedding models the rendered markup tree (`HNode`), the ADF element
sequence produced by the builder (`Adf`), the single-node dispatch
`traverse`, the top-level driver `htmlToAdf`, the diagram pipeline
`convertMermaidToImage`, and the page-linkage orchestrator
`runGetConfluenceLink`.  External collaborators (content directors, the
properties adaptor, the remote client, the diagram renderer, the vault)
appear as explicit environment records, following the external-interface
contracts of the specification.
-/

set_option maxRecDepth 4000

mutual
/-- A rendered markup node, as produced by the external renderer: either an
element (with tag name, class list, attribute list, children) or a text node.
`HList` is the child list (mutual with `HNode` so every function below is
structural and computes by reduction). -/
inductive HNode where
  | elem (tag : String) (classes : List String) (attrs : List (String × String)) (children : HList)
  | text (s : String)
inductive HList where
  | nil
  | cons (head : HNode) (tail : HList)
end

/-- Plain-list view of an `HList`. -/
def HList.toList : HList → List HNode
  | .nil => []
  | .cons h t => h :: t.toList

mutual
/-- The `textContent` of a node: concatenation of all text descendants. -/
def textContent : HNode → String
  | .text s => s
  | .elem _ _ _ cs => textContentL cs

/-- The `textContent` of a child list. -/
def textContentL : HList → String
  | .nil => ""
  | .cons c cs => textContent c ++ textContentL cs
end

mutual
/-- All proper descendants of a node, in document (pre)order: this is the
node list that `querySelectorAll` filters. -/
def descendantsOf : HNode → List HNode
  | .text _ => []
  | .elem _ _ _ cs => descendantsL cs

/-- Preorder descendants contributed by a child list: each child followed by
its own descendants. -/
def descendantsL : HList → List HNode
  | .nil => []
  | .cons c cs => c :: (descendantsOf c ++ descendantsL cs)
end

/-- Whether a node is an element node. -/
def HNode.isElem : HNode → Bool
  | .elem _ _ _ _ => true
  | .text _ => false

/-- The `nodeName` of a node (tag name for elements, `#text` for text). -/
def tagOf : HNode → String
  | .elem t _ _ _ => t
  | .text _ => "#text"

/-- The `classList` of a node (empty for text nodes). -/
def classesOf : HNode → List String
  | .elem _ c _ _ => c
  | .text _ => []

/-- `getAttr`: attribute lookup, `none` when the attribute is absent. -/
def getAttr (n : HNode) (name : String) : Option String :=
  match n with
  | .elem _ _ attrs _ => (attrs.find? (fun p => p.1 == name)).map (fun p => p.2)
  | .text _ => none

/-- The `childNodes` of a node, as a plain list. -/
def childNodes : HNode → List HNode
  | .elem _ _ _ cs => cs.toList
  | .text _ => []

/-- The raw child list of a node (used when children are moved wholesale). -/
def childrenHL : HNode → HList
  | .elem _ _ _ cs => cs
  | .text _ => .nil

/-- The `children` collection: element children only. -/
def elemChildren (n : HNode) : List HNode :=
  (childNodes n).filter HNode.isElem

/-- Tag test used by the selectors below. -/
def isTag (t : String) (n : HNode) : Bool :=
  tagOf n == t

/-- `querySelectorAll` for a decidable selector: all matching descendants in
document order. -/
def queryAll (p : HNode → Bool) (n : HNode) : List HNode :=
  (descendantsOf n).filter p

/-- `querySelector`: the first matching descendant. -/
def queryFirst (p : HNode → Bool) (n : HNode) : Option HNode :=
  (queryAll p n).head?

/-- Selector for `input[type="checkbox"]`. -/
def isCheckbox (n : HNode) : Bool :=
  tagOf n == "INPUT" && getAttr n "type" == some "checkbox"

/-- ASCII whitespace, the whitespace actually present in rendered markup
text (the JavaScript `trim` additionally strips other Unicode spaces). -/
def wsChar (c : Char) : Bool :=
  c == ' ' || c == '\t' || c == '\n' || c == '\r'

/-- JavaScript `String.prototype.trim`, on the ASCII whitespace set. -/
def jsTrim (s : String) : String :=
  .mk (((s.data.dropWhile wsChar).reverse.dropWhile wsChar).reverse)

/-- JavaScript `String.prototype.startsWith`. -/
def strStartsWith (s pre : String) : Bool :=
  pre.data.isPrefixOf s.data

/-- JavaScript truthiness of a nullable string: `null`/`undefined` and the
empty string are falsy.  Returns the string when truthy. -/
def truthyStr : Option String → Option String
  | none => none
  | some s => if s = "" then none else some s

/-- JavaScript `Boolean(x)` of a nullable string. -/
def truthyAttr : Option String → Bool
  | none => false
  | some s => s != ""

/-- An ADF block element, as produced by the builder's constructors
(`headingItem`, `tableItem`, `taskListItem`, `codeBlockItem`, ...).
Nested content (table cells, list items) is each its own ordered element
sequence. -/
inductive Adf where
  | heading (level : Nat) (text : String)
  | paragraph (text : String)
  | table (rows : List (List (List Adf)))
  | orderedList (items : List (List Adf))
  | bulletList (items : List (List Adf))
  | taskList (items : List (String × Bool))
  | codeBlock (text : String)
  | blockquote (text : String)
  | horizontalRule
  | mediaSingle (fileId : String) (mediaType : String) (layout : String)

/-- Whether an element is a `codeBlock`. -/
def Adf.isCodeBlock : Adf → Bool
  | .codeBlock _ => true
  | _ => false

/-- The `extensions` field of one attachment result. -/
structure UploadExtensions where
  fileId : String

/-- One entry of the upload response's `results` array; `extensions` may be
absent. -/
structure UploadResult where
  extensions : Option UploadExtensions

/-- The attachment-upload response body. -/
structure UploadResponse where
  results : List UploadResult

/-- Environment of the diagram pipeline: the external renderer, the DOM
parse of the rendered markup (`firstElementChild`, `none` when the markup
has no element so that the subsequent attribute writes throw), the XML
serializer, and the remote upload call.  `Except` results model thrown
errors. -/
structure MermaidEnv where
  render : String → Except String String
  parseSvg : String → Option String
  serialize : String → String
  upload : String → String → Except String (Option UploadResponse)

/-- The XML declaration prepended to the serialized image. -/
def xmlHeader : String :=
  "<?xml version=\"1.0\" encoding=\"UTF-8\" standalone=\"no\"?>\n"

/-- `convertMermaidToImage`: render the diagram, post-process and serialize
the image element, upload it, and extract the first attachment's file id.
Every thrown error at any step is caught and yields `none`; a response of
an unexpected shape also yields `none` (the function is total: it never
throws). -/
def convertMermaidToImage (env : MermaidEnv) (mermaidCode pageId : String) : Option String :=
  match env.render mermaidCode with
  | .error _ => none
  | .ok svg =>
    match env.parseSvg svg with
    | none => none
    | some svgElement =>
      let svgString := xmlHeader ++ env.serialize svgElement
      match env.upload pageId svgString with
      | .error _ => none
      | .ok none => none
      | .ok (some resp) =>
        match resp.results.head? with
        | none => none
        | some r =>
          match r.extensions with
          | none => none
          | some ext => some ext.fileId

/-- The outcome of pipeline steps (1)-(5) of the specification: `some r`
when no step threw, carrying the (possibly absent) upload response body;
`none` when some step threw.  This definition follows the specification's
step list and is the spec-side half of the C7 comparison. -/
def stepsResponse (env : MermaidEnv) (mermaidCode pageId : String) : Option (Option UploadResponse) :=
  match env.render mermaidCode with
  | .error _ => none
  | .ok svg =>
    match env.parseSvg svg with
    | none => none
    | some svgElement =>
      match env.upload pageId (xmlHeader ++ env.serialize svgElement) with
      | .error _ => none
      | .ok r => some r

/-- Spec-side extraction (C7): on a well-formed response, the first
attachment's backend-assigned file identifier; on any other shape, `none`. -/
def wellFormedExtract : Option UploadResponse → Option String
  | none => none
  | some resp =>
    match resp.results.head? with
    | some { extensions := some ext } => some ext.fileId
    | _ => none

/-- Environment of the traversal engine: the two external content
directors (each appends an element sequence for the node it is given,
using a fresh sub-builder where the source creates one), the content of
the document at `filePath` as the vault currently stores it (`none` when
the path does not resolve to a file), the external properties adaptor's
`pageId` lookup, and the diagram-pipeline environment. -/
structure Env where
  paraDirector : HNode → List Adf
  tableDirector : HNode → List Adf
  fileContent : Option String
  pageIdOf : String → Option String
  mermaidEnv : MermaidEnv

/-- The mermaid branch of the `PRE` case: `some fid` exactly when the
language tag is `mermaid`, the file resolves, the stored properties hold a
truthy page id, and the pipeline returns a truthy file id.  Any failure
(including a thrown read error, modelled by `fileContent = none`) yields
`none`, falling through to the code-block fallback. -/
def mermaidFileId (env : Env) (codeElement : HNode) : Option String :=
  let classes := classesOf codeElement
  let language := (classes.find? (fun c => strStartsWith c "language-")).map (fun c => c.drop 9)
  if language == some "mermaid" then
    match env.fileContent with
    | none => none
    | some fileData =>
      match truthyStr (env.pageIdOf fileData) with
      | none => none
      | some pid => truthyStr (convertMermaidToImage env.mermaidEnv (textContent codeElement) pid)
  else none

/-- The synthetic paragraph built for a non-task list item: a fresh `P`
element that receives all of the item's child nodes. -/
def syntheticParagraph (li : HNode) : HNode :=
  .elem "P" [] [] (childrenHL li)

/-- The table sub-structure the `TABLE` case converts: every `tr`
descendant in document order, each with its `td`/`th` descendants in
document order. -/
def tableCellsOf (node : HNode) : List (List HNode) :=
  (queryAll (isTag "TR") node).map
    (fun row => queryAll (fun c => isTag "TD" c || isTag "TH" c) row)

/-- The task items read off a task list: per element child, its trimmed
text content and the truthiness of its `data-task` attribute. -/
def taskItemsOf (node : HNode) : List (String × Bool) :=
  (elemChildren node).map
    (fun li => (jsTrim (textContent li), truthyAttr (getAttr li "data-task")))

/-- The item contents of a non-task list: per element child, the
paragraph director's output on the synthetic paragraph holding the item's
children (each item uses a fresh sub-builder). -/
def listItemsOf (env : Env) (node : HNode) : List (List Adf) :=
  (elemChildren node).map (fun li => env.paraDirector (syntheticParagraph li))

namespace FileAdaptor

/-- Single-node dispatch of the traversal engine; returns the elements the
call appends to the builder it is given, in order. -/
def traverse (env : Env) (node : HNode) : List Adf :=
  match tagOf node with
  | "H1" => [.heading 1 (textContent node)]
  | "H2" => [.heading 2 (textContent node)]
  | "H3" => [.heading 3 (textContent node)]
  | "H4" => [.heading 4 (textContent node)]
  | "H5" => [.heading 5 (textContent node)]
  | "H6" => [.heading 6 (textContent node)]
  | "TABLE" =>
    [.table ((tableCellsOf node).map (fun cells => cells.map env.tableDirector))]
  | "PRE" =>
    match queryFirst (isTag "CODE") node with
    | none => []
    | some codeElement =>
      let codeText := textContent codeElement
      match mermaidFileId env codeElement with
      | some fid => [.mediaSingle fid "attachment" "wide"]
      | none =>
        if (classesOf codeElement).contains "language-yaml" then []
        else [.codeBlock codeText]
  | "P" => env.paraDirector node
  | "OL" | "UL" =>
    if (queryAll (isTag "LI") node).length == (queryAll isCheckbox node).length then
      [.taskList (taskItemsOf node)]
    else if tagOf node == "OL" then
      [.orderedList (listItemsOf env node)]
    else
      [.bulletList (listItemsOf env node)]
  | "BLOCKQUOTE" => [.blockquote (textContent node)]
  | "HR" => [.horizontalRule]
  | _ => []

end FileAdaptor

/-- `htmlToAdf`: a fresh builder, `traverse` awaited sequentially over the
container's child nodes, then `build()` — the in-order concatenation of
every child's appended elements. -/
def htmlToAdf (env : Env) (container : List HNode) : List Adf :=
  (container.map (FileAdaptor.traverse env)).flatten

/-- Modelled from the spec: the Properties Store's flat property map,
restricted to the fixed fields the core reads and writes (the adaptor
itself is external to `src/`). -/
structure Props where
  pageId : Option String := none
  spaceId : Option String := none
  confluenceUrl : Option String := none

/-- The `_links` part of the page-creation response. -/
structure PageLinks where
  base : String
  webui : String

/-- The page-creation response. -/
structure CreateResponse where
  id : String
  spaceId : String
  links : PageLinks

/-- Observable events of one `getConfluenceLink` run, in order: the vault
read, the remote page creation, the vault write persisting the metadata
block, the conversion pass (payload: the text that is rendered and
traversed), and the remote page update. -/
inductive Ev where
  | vaultRead
  | createPage (spaceId pageTitle : String)
  | vaultModify (newText : String)
  | traverseDoc (text : String)
  | updatePage (pageId pageTitle : String) (adf : List Adf)

/-- Environment of the linkage orchestrator: path resolution outcome,
the resolved file's display name, the configured space id, the external
properties adaptor (`loadProps` parses the metadata block, `toFile`
serializes a property set back into a source text), the creation
response the remote client would return, the external renderer
(source text to markup tree), and the traversal environment (its
`fileContent` field is overridden with the vault's current content at
traversal time). -/
structure LinkCtx where
  resolved : Bool
  fileName : String
  spaceId : String
  loadProps : String → Props
  toFile : String → Props → String
  create : CreateResponse
  render : String → List HNode
  tenv : Env

/-- The property set written on first link: the loaded properties plus the
new page id, space id and URL from the creation response. -/
def firstLinkProps (ctx : LinkCtx) (fileData : String) : Props :=
  { ctx.loadProps fileData with
    pageId := some ctx.create.id
    spaceId := some ctx.create.spaceId
    confluenceUrl := some (ctx.create.links.base ++ ctx.create.links.webui) }

/-- The annotated source text persisted on first link. -/
def annotatedText (ctx : LinkCtx) (fileData : String) : String :=
  ctx.toFile fileData (firstLinkProps ctx fileData)

/-- The SDF sequence built by the first-link conversion pass: the
originally read text is rendered and traversed, while the traversal's
vault view (`fileContent`) holds the already-annotated text. -/
def firstPassAdf (ctx : LinkCtx) (fileData : String) : List Adf :=
  htmlToAdf { ctx.tenv with fileContent := some (annotatedText ctx fileData) }
    (ctx.render fileData)

/-- `getConfluenceLink` as a state transformer on the document's stored
source text: returns the URL, the event trace, and the vault content after
the call.  An unresolvable path returns the sentinel `"#"`; a cached
truthy `confluenceUrl` is returned from the read-only fast path; otherwise
the first-link sequence runs. -/
def runGetConfluenceLink (ctx : LinkCtx) (vault : String) : String × List Ev × String :=
  if ctx.resolved then
    let fileData := vault
    match truthyStr (ctx.loadProps fileData).confluenceUrl with
    | some url => (url, [.vaultRead], vault)
    | none =>
      let url := ctx.create.links.base ++ ctx.create.links.webui
      let newText := annotatedText ctx fileData
      (url,
       [.vaultRead,
        .createPage ctx.spaceId ctx.fileName,
        .vaultModify newText,
        .traverseDoc fileData,
        .updatePage ctx.create.id ctx.fileName (firstPassAdf ctx fileData)],
       newText)
  else ("#", [], vault)

/-- Sequence a list of slots: `some` of the contents when every slot is
filled, `none` otherwise (the fan-in join). -/
def joinAll {β : Type} : List (Option β) → Option (List β)
  | [] => some []
  | none :: _ => none
  | some b :: rest => (joinAll rest).map (fun l => b :: l)

/-- Apply branch completions in the given completion order: completion of
branch `i` stores its result in slot `i` (out-of-range completions are
no-ops, matching a join that never reads them). -/
def runCompletions {β : Type} (f : Nat → β) : List Nat → List (Option β) → List (Option β)
  | [], slots => slots
  | i :: order, slots => runCompletions f order (slots.set i (some (f i)))

/-- The fan-out/fan-in pattern of `Promise.all` over `n` branches whose
results depend only on their index: run the completions in an arbitrary
completion order over initially empty slots, then join. -/
def promiseAll {β : Type} (f : Nat → β) (n : Nat) (order : List Nat) : Option (List β) :=
  joinAll (runCompletions f order (List.replicate n none))

/-- One row branch of the concurrent table conversion: the inner
`Promise.all` over the row's cells, each cell converted by the table-cell
director on a fresh sub-builder. -/
def rowTask (dir : HNode → List Adf) (rows : List (List HNode))
    (inner : Nat → List Nat) (i : Nat) : Option (List (List Adf)) :=
  promiseAll (fun j => dir ((rows.getD i []).getD j (HNode.text "")))
    (rows.getD i []).length (inner i)

/-- The `TABLE` case of `traverse` with its two `Promise.all` fan-outs
made explicit: `outer` is the completion order of the row branches and
`inner i` the completion order of row `i`'s cell branches. -/
def convertTableConcurrent (dir : HNode → List Adf) (rows : List (List HNode))
    (outer : List Nat) (inner : Nat → List Nat) : Option Adf :=
  ((promiseAll (rowTask dir rows inner) rows.length outer).bind joinAll).map Adf.table

/-- Modelled from the spec: the direct sequential per-cell conversion a
table must refine — every row in source order, every cell within a row in
source order, each cell converted by the table-cell director alone. -/
def directRows (dir : HNode → List Adf) (rows : List (List HNode)) : List (List (List Adf)) :=
  rows.map (fun r => r.map dir)

/-- Modelled from the spec: the Table element the direct sequential
conversion produces. -/
def convertTableDirect (dir : HNode → List Adf) (rows : List (List HNode)) : Adf :=
  .table (directRows dir rows)

/-- The node kinds the dispatch table recognizes. -/
def recognizedTags : List String :=
  ["H1", "H2", "H3", "H4", "H5", "H6", "TABLE", "PRE", "P", "OL", "UL", "BLOCKQUOTE", "HR"]

/-- The recognized kinds whose dispatch appends exactly one element
unconditionally. -/
def singleElementTags : List String :=
  ["H1", "H2", "H3", "H4", "H5", "H6", "TABLE", "OL", "UL", "BLOCKQUOTE", "HR"]

/-- A diagram-pipeline environment whose renderer throws. -/
def nullMermaidEnv : MermaidEnv where
  render := fun _ => .error "render failed"
  parseSvg := fun _ => none
  serialize := fun s => s
  upload := fun _ _ => .error "network error"

/-- A traversal environment with empty director output and no resolvable
document file. -/
def nullEnv : Env where
  paraDirector := fun _ => []
  tableDirector := fun _ => []
  fileContent := none
  pageIdOf := fun _ => none
  mermaidEnv := nullMermaidEnv

/-- A rendered `PRE` block whose code element carries the metadata
language `yaml`. -/
def yamlPre : HNode :=
  .elem "PRE" [] []
    (.cons (.elem "CODE" ["language-yaml"] [] (.cons (.text "pageId: 42") .nil)) .nil)

/-- A rendered level-one heading. -/
def h1Node : HNode :=
  .elem "H1" [] [] (.cons (.text "Title") .nil)

/-- A code element carrying both the diagram language class and the
metadata language class. -/
def mermaidYamlCode : HNode :=
  .elem "CODE" ["language-mermaid", "language-yaml"] [] (.cons (.text "graph TD") .nil)

/-- The `PRE` block around `mermaidYamlCode`. -/
def mermaidYamlPre : HNode :=
  .elem "PRE" [] [] (.cons mermaidYamlCode .nil)

/-- A code element carrying only the diagram language class. -/
def mermaidCodeEl : HNode :=
  .elem "CODE" ["language-mermaid"] [] (.cons (.text "graph TD") .nil)

/-- The `PRE` block around `mermaidCodeEl`. -/
def mermaidPre : HNode :=
  .elem "PRE" [] [] (.cons mermaidCodeEl .nil)

/-- An upload response whose first attachment result carries a file id. -/
def okUploadResponse : UploadResponse :=
  { results := [{ extensions := some { fileId := "att-1" } }] }

/-- A diagram-pipeline environment in which every step succeeds. -/
def okMermaidEnv : MermaidEnv where
  render := fun _ => .ok "<svg></svg>"
  parseSvg := fun s => some s
  serialize := fun s => s
  upload := fun _ _ => .ok (some okUploadResponse)

/-- A traversal environment for a linked document: the file resolves, its
properties hold a page id, and the diagram pipeline succeeds. -/
def okEnv : Env where
  paraDirector := fun _ => []
  tableDirector := fun _ => []
  fileContent := some "---\npageId: 42\n---\ncontent"
  pageIdOf := fun _ => some "42"
  mermaidEnv := okMermaidEnv

/-- A checkbox input element. -/
def cbInput : HNode :=
  .elem "INPUT" [] [("type", "checkbox")] .nil

/-- The inner item of the nested-list counterexample. -/
def nestedLi : HNode :=
  .elem "LI" [] [] (.cons cbInput (.cons (.text "x") .nil))

/-- The nested sublist of the nested-list counterexample. -/
def innerUl : HNode :=
  .elem "UL" [] [] (.cons nestedLi .nil)

/-- The single item child of the nested-list counterexample; it contains a
checkbox and a whole sublist. -/
def outerLi : HNode :=
  .elem "LI" [] [] (.cons cbInput (.cons innerUl .nil))

/-- A list with one item child but two `li` descendants and two checkbox
descendants. -/
def nestedList : HNode :=
  .elem "UL" [] [] (.cons outerLi .nil)

/-- An item holding three checkboxes: checkboxes not one-per-item. -/
def quirkLi1 : HNode :=
  .elem "LI" [] [] (.cons cbInput (.cons cbInput (.cons cbInput (.cons (.text "a") .nil))))

/-- A plain item. -/
def quirkLi2 : HNode :=
  .elem "LI" [] [] (.cons (.text "b") .nil)

/-- A plain item. -/
def quirkLi3 : HNode :=
  .elem "LI" [] [] (.cons (.text "c") .nil)

/-- An unordered list whose only child is a `DIV` holding text: zero `li`
descendants and zero checkbox descendants, but one element child. -/
def divChildList : HNode :=
  HNode.elem "UL" [] [] (.cons (.elem "DIV" [] [] (.cons (.text "x") .nil)) .nil)

/-- An unordered list whose only child is a whitespace text node: zero
element children, zero `li` descendants, zero checkbox descendants. -/
def textOnlyList : HNode :=
  HNode.elem "UL" [] [] (.cons (.text " ") .nil)

/-- A three-item list with exactly three checkbox descendants, all inside
the first item. -/
def quirkList : HNode :=
  .elem "UL" [] [] (.cons quirkLi1 (.cons quirkLi2 (.cons quirkLi3 .nil)))

/-- Modelled from the spec: the checkbox input the external renderer puts
inside a rendered task item (the renderer itself is not part of `src/`). -/
def c9Checkbox : HNode :=
  .elem "INPUT" ["task-list-item-checkbox"] [("type", "checkbox")] .nil

/-- Modelled from the spec: the rendered item for `- [x] a` — a checked
task item carries its checked state in the `data-task` attribute. -/
def c9ItemA : HNode :=
  .elem "LI" ["task-list-item", "is-checked"] [("data-task", "x")]
    (.cons c9Checkbox (.cons (.text " a") .nil))

/-- Modelled from the spec: the rendered item for `- [ ] b` — an unchecked
task item has no `data-task` attribute. -/
def c9ItemB : HNode :=
  .elem "LI" ["task-list-item"] []
    (.cons c9Checkbox (.cons (.text " b") .nil))

/-- Modelled from the spec: the rendered markup tree of the input list
`- [x] a` / `- [ ] b` (two items, two checkboxes). -/
def c9List : HNode :=
  .elem "UL" ["contains-task-list"] [] (.cons c9ItemA (.cons c9ItemB .nil))

/-- A table cell holding one text node. -/
def cellP (s : String) : HNode :=
  .elem "TD" [] [] (.cons (.text s) .nil)

/-- A concrete 2x2 cell grid. -/
def wRows : List (List HNode) :=
  [[cellP "r0c0", cellP "r0c1"], [cellP "r1c0", cellP "r1c1"]]

/-- A concrete table-cell director: one paragraph per cell. -/
def wDir : HNode → List Adf :=
  fun c => [.paragraph (textContent c)]

/-- Modelled from the spec: a properties adaptor serialization that
prepends a metadata block holding the page id to the source text (the
adaptor is external to `src/`). -/
def metaToFile (s : String) (p : Props) : String :=
  "---\npageId: " ++ p.pageId.getD "" ++ "\n---\n" ++ s

/-- A linkage context for a brand-new document: the path resolves and the
stored properties hold no URL. -/
def freshLinkCtx : LinkCtx where
  resolved := true
  fileName := "Note.md"
  spaceId := "SP"
  loadProps := fun _ => {}
  toFile := metaToFile
  create := { id := "42", spaceId := "SP", links := { base := "https://conf", webui := "/p/42" } }
  render := fun _ => [h1Node]
  tenv := nullEnv

/-- A linkage context for an already-linked document: the stored
properties hold a cached URL. -/
def cachedLinkCtx : LinkCtx where
  resolved := true
  fileName := "Note.md"
  spaceId := "SP"
  loadProps := fun _ => { confluenceUrl := some "https://conf/p/42" }
  toFile := metaToFile
  create := { id := "42", spaceId := "SP", links := { base := "https://conf", webui := "/p/42" } }
  render := fun _ => [h1Node]
  tenv := nullEnv

/-! Fan-out/fan-in lemmas: the slot-indexed join is completion-order
independent. -/

theorem joinAll_map_some {β : Type} (l : List β) : joinAll (l.map some) = some l := by
  induction l with
  | nil => rfl
  | cons a t ih => simp [joinAll, ih]

theorem runCompletions_length {β : Type} (f : Nat → β) (order : List Nat)
    (slots : List (Option β)) :
    (runCompletions f order slots).length = slots.length := by
  induction order generalizing slots with
  | nil => rfl
  | cons j order ih => simp [runCompletions, ih]

theorem runCompletions_get? {β : Type} (f : Nat → β) (order : List Nat)
    (slots : List (Option β)) (i : Nat) (hi : i < slots.length) :
    (runCompletions f order slots).get? i =
      if i ∈ order then some (some (f i)) else slots.get? i := by
  induction order generalizing slots with
  | nil => simp [runCompletions]
  | cons j order ih =>
    rw [runCompletions, ih _ (by simpa using hi)]
    by_cases hio : i ∈ order
    · simp [hio, List.mem_cons]
    · by_cases hij : i = j
      · subst hij
        simp [hio, List.getElem?_set, hi]
      · have hji : ¬ j = i := fun h => hij h.symm
        simp [hio, hij, List.getElem?_set, hji]

theorem promiseAll_eq {β : Type} (f : Nat → β) (n : Nat) (order : List Nat)
    (hc : ∀ i, i < n → i ∈ order) :
    promiseAll f n order = some ((List.range n).map f) := by
  have hslots : runCompletions f order (List.replicate n none) =
      (List.range n).map (fun i => some (f i)) := by
    apply List.ext_get?
    intro i
    by_cases hi : i < n
    · rw [runCompletions_get? f order _ i (by simpa using hi)]
      simp [hc i hi, List.getElem?_range hi]
    · have h1 : (runCompletions f order (List.replicate n none)).length ≤ i := by
        rw [runCompletions_length]
        simpa using Nat.le_of_not_lt hi
      have h2 : ((List.range n).map (fun i => some (f i))).length ≤ i := by
        simpa using Nat.le_of_not_lt hi
      rw [List.get?_eq_none.mpr h1, List.get?_eq_none.mpr h2]
  rw [promiseAll, hslots]
  have hms : (List.range n).map (fun i => some (f i)) = ((List.range n).map f).map some := by
    simp [List.map_map]
  rw [hms, joinAll_map_some]

theorem map_getD_range {α β : Type} (g : α → β) (d : α) (xs : List α) :
    (List.range xs.length).map (fun i => g (xs.getD i d)) = xs.map g := by
  induction xs with
  | nil => rfl
  | cons x t ih =>
    rw [List.length_cons, List.range_succ_eq_map, List.map_cons, List.map_map]
    simp only [Function.comp_def, List.getD_cons_succ, List.getD_cons_zero, List.map_cons]
    exact congrArg (g x :: ·) ih

theorem rowTask_eq (dir : HNode → List Adf) (rows : List (List HNode))
    (inner : Nat → List Nat) (i : Nat)
    (h : ∀ j, j < (rows.getD i []).length → j ∈ inner i) :
    rowTask dir rows inner i = some ((rows.getD i []).map dir) := by
  rw [rowTask, promiseAll_eq _ _ _ h, map_getD_range]

/-- C5: for every table, the concurrent conversion (both `Promise.all`
fan-outs, under every completion order that completes every branch)
returns exactly the Table element of the direct sequential per-cell
conversion: R rows in source order, each with its C cells in source
order, each cell's content being the table-cell director's output on that
cell alone; and the `TABLE` case of `traverse` appends exactly that
single element. -/
theorem tableConcurrent_refinesDirect (dir : HNode → List Adf) (rows : List (List HNode))
    (outer : List Nat) (inner : Nat → List Nat)
    (houter : ∀ i, i < rows.length → i ∈ outer)
    (hinner : ∀ i, i < rows.length → ∀ j, j < (rows.getD i []).length → j ∈ inner i) :
    convertTableConcurrent dir rows outer inner = some (convertTableDirect dir rows) ∧
    (directRows dir rows).map List.length = rows.map List.length ∧
    ∀ env node, tagOf node = "TABLE" →
      FileAdaptor.traverse env node =
        [convertTableDirect env.tableDirector (tableCellsOf node)] := by
  refine ⟨?_, ?_, ?_⟩
  · rw [convertTableConcurrent, promiseAll_eq _ _ _ houter]
    have hmap : (List.range rows.length).map (rowTask dir rows inner) =
        ((List.range rows.length).map (fun i => (rows.getD i []).map dir)).map some := by
      rw [List.map_map]
      apply List.map_congr_left
      intro i hi
      exact rowTask_eq dir rows inner i (hinner i (List.mem_range.mp hi))
    rw [Option.some_bind, hmap, joinAll_map_some]
    have hrows := map_getD_range (fun r => r.map dir) ([] : List HNode) rows
    simp only at hrows
    rw [Option.map_some', hrows, convertTableDirect, directRows]
  · simp [directRows, List.map_map, Function.comp_def]
  · intro env node h
    simp [FileAdaptor.traverse, h, convertTableDirect, directRows]

/-- C5 witness: a concrete 2x2 table converted with reversed completion
orders still yields the direct sequential conversion. -/
theorem tableConcurrent_refinesDirect_inst :
    convertTableConcurrent wDir wRows [1, 0] (fun _ => [1, 0]) =
      some (convertTableDirect wDir wRows) ∧
    (directRows wDir wRows).map List.length = wRows.map List.length := by
  have h := tableConcurrent_refinesDirect wDir wRows [1, 0] (fun _ => [1, 0])
    (by decide) (by decide)
  exact ⟨h.1, h.2.1⟩

/-- C1 (amended): `htmlToAdf` returns the in-order concatenation of every
top-level node's contribution; every heading, table, list, blockquote and
horizontal rule contributes exactly one element; a paragraph contributes
exactly the elements its Content Director appends; a code block
contributes at most one element (zero when it has no code child or when
the yaml metadata class suppresses the fallback); every node of an
unrecognized kind contributes nothing and raises no error. -/
theorem blockContribution (env : Env) (nodes : List HNode) :
    htmlToAdf env nodes = (nodes.map (FileAdaptor.traverse env)).flatten ∧
    ∀ n ∈ nodes,
      (tagOf n ∈ singleElementTags → (FileAdaptor.traverse env n).length = 1) ∧
      (tagOf n = "P" → FileAdaptor.traverse env n = env.paraDirector n) ∧
      (tagOf n = "PRE" → (FileAdaptor.traverse env n).length ≤ 1) ∧
      (tagOf n ∉ recognizedTags → FileAdaptor.traverse env n = []) := by
  refine ⟨rfl, fun n _ => ⟨?_, ?_, ?_, ?_⟩⟩
  · intro h
    simp only [singleElementTags, List.mem_cons, List.not_mem_nil, or_false] at h
    rcases h with h | h | h | h | h | h | h | h | h | h | h <;>
      simp only [FileAdaptor.traverse, h] <;> (repeat' split) <;> simp
  · intro h
    simp [FileAdaptor.traverse, h]
  · intro h
    simp only [FileAdaptor.traverse, h]
    split
    · simp
    · rename_i ce heq
      rcases hm : mermaidFileId env ce with _ | fid
      · simp only [hm]
        split <;> simp
      · simp [hm]
  · intro h
    simp only [recognizedTags, List.mem_cons, List.not_mem_nil, or_false, not_or] at h
    unfold FileAdaptor.traverse
    split <;> simp_all

/-- C1 witness: a one-heading document yields exactly one element. -/
theorem blockContribution_inst :
    htmlToAdf nullEnv [h1Node] = [Adf.heading 1 "Title"] ∧
    (FileAdaptor.traverse nullEnv h1Node).length = 1 := by
  refine ⟨rfl, ?_⟩
  exact ((blockContribution nullEnv [h1Node]).2 h1Node (by simp)).1 (by decide)

/-- C1 counterexample: a `PRE` node is a recognized block kind, yet a
document consisting of exactly this one node converts to the empty SDF
sequence (its code element carries the metadata language `yaml`), so the
output does not have one element per recognized-kind node. -/
theorem blockContribution_cex :
    tagOf yamlPre ∈ recognizedTags ∧ htmlToAdf nullEnv [yamlPre] = [] := by
  exact ⟨by decide, rfl⟩

/-- C2: on a brand-new document (resolved path, no truthy cached URL) the
orchestrator performs exactly one read, one `createPage`, one metadata
write, one conversion pass and one `updatePage`, in that order, and
returns the concatenation of the creation response's `base` and `webui`
links. -/
theorem firstLink_callSequence (ctx : LinkCtx) (vault : String)
    (hres : ctx.resolved = true)
    (hnc : truthyStr ((ctx.loadProps vault).confluenceUrl) = none) :
    runGetConfluenceLink ctx vault =
      (ctx.create.links.base ++ ctx.create.links.webui,
       [Ev.vaultRead,
        Ev.createPage ctx.spaceId ctx.fileName,
        Ev.vaultModify (annotatedText ctx vault),
        Ev.traverseDoc vault,
        Ev.updatePage ctx.create.id ctx.fileName (firstPassAdf ctx vault)],
       annotatedText ctx vault) := by
  simp [runGetConfluenceLink, hres, hnc]

/-- C2 witness: the first-link sequence on a concrete context. -/
theorem firstLink_callSequence_inst :
    runGetConfluenceLink freshLinkCtx "body" =
      ("https://conf/p/42",
       [Ev.vaultRead,
        Ev.createPage "SP" "Note.md",
        Ev.vaultModify "---\npageId: 42\n---\nbody",
        Ev.traverseDoc "body",
        Ev.updatePage "42" "Note.md" [Adf.heading 1 "Title"]],
       "---\npageId: 42\n---\nbody") := by
  exact firstLink_callSequence freshLinkCtx "body" rfl rfl

/-- C6: on a document whose stored properties hold a truthy cached URL,
`getConfluenceLink` returns that URL from the read-only fast path (one
vault read, no remote call, no conversion, vault unchanged), and a second
successive call returns the identical URL with the identical trace. -/
theorem cachedLink_idempotent (ctx : LinkCtx) (vault url : String)
    (hres : ctx.resolved = true)
    (hurl : truthyStr ((ctx.loadProps vault).confluenceUrl) = some url) :
    runGetConfluenceLink ctx vault = (url, [Ev.vaultRead], vault) ∧
    runGetConfluenceLink ctx (runGetConfluenceLink ctx vault).2.2 =
      (url, [Ev.vaultRead], vault) := by
  have h1 : runGetConfluenceLink ctx vault = (url, [Ev.vaultRead], vault) := by
    simp [runGetConfluenceLink, hres, hurl]
  refine ⟨h1, ?_⟩
  rw [h1]
  exact h1

/-- C6 witness: both successive calls on a concrete cached context. -/
theorem cachedLink_idempotent_inst :
    runGetConfluenceLink cachedLinkCtx "body" =
      ("https://conf/p/42", [Ev.vaultRead], "body") ∧
    runGetConfluenceLink cachedLinkCtx
        (runGetConfluenceLink cachedLinkCtx "body").2.2 =
      ("https://conf/p/42", [Ev.vaultRead], "body") := by
  exact cachedLink_idempotent cachedLinkCtx "body" "https://conf/p/42" rfl rfl

/-- C8 (amended): in the first-link path, the new identity is persisted
into the properties and the document source before conversion begins (the
metadata write precedes the conversion pass in the trace), and the
conversion pass reads the annotated content from the vault, but the
markup tree it traverses is rendered from the source text as read before
annotation, not from the annotated text. -/
theorem firstLink_persistBeforeTraverse (ctx : LinkCtx) (vault : String)
    (hres : ctx.resolved = true)
    (hnc : truthyStr ((ctx.loadProps vault).confluenceUrl) = none) :
    (runGetConfluenceLink ctx vault).2.1 =
      [Ev.vaultRead,
       Ev.createPage ctx.spaceId ctx.fileName,
       Ev.vaultModify (annotatedText ctx vault),
       Ev.traverseDoc vault,
       Ev.updatePage ctx.create.id ctx.fileName (firstPassAdf ctx vault)] ∧
    firstPassAdf ctx vault =
      htmlToAdf { ctx.tenv with fileContent := some (annotatedText ctx vault) }
        (ctx.render vault) := by
  refine ⟨?_, rfl⟩
  simp [runGetConfluenceLink, hres, hnc]

/-- C8 witness: the amended first-link ordering on a concrete context. -/
theorem firstLink_persistBeforeTraverse_inst :
    (runGetConfluenceLink freshLinkCtx "body").2.1 =
      [Ev.vaultRead,
       Ev.createPage "SP" "Note.md",
       Ev.vaultModify "---\npageId: 42\n---\nbody",
       Ev.traverseDoc "body",
       Ev.updatePage "42" "Note.md" [Adf.heading 1 "Title"]] ∧
    firstPassAdf freshLinkCtx "body" = [Adf.heading 1 "Title"] := by
  have h := firstLink_persistBeforeTraverse freshLinkCtx "body" rfl rfl
  exact ⟨h.1, rfl⟩

/-- C8 counterexample: on a concrete first link the annotated text written
to the vault differs from the text the conversion pass renders and
traverses — the traversal runs over the source as read before annotation,
not over the now-annotated source. -/
theorem firstLink_staleTraverse_cex :
    (runGetConfluenceLink freshLinkCtx "body").2.1 =
      [Ev.vaultRead,
       Ev.createPage "SP" "Note.md",
       Ev.vaultModify "---\npageId: 42\n---\nbody",
       Ev.traverseDoc "body",
       Ev.updatePage "42" "Note.md" [Adf.heading 1 "Title"]] ∧
    ("body" : String) ≠ "---\npageId: 42\n---\nbody" := by
  exact ⟨rfl, by decide⟩

/-- C3 (amended): for a `PRE` node whose first code descendant is
`codeEl` — when the mermaid branch yields a truthy file id (language tag
`mermaid`, resolvable file, truthy stored page id, successful pipeline),
the dispatch appends exactly one wide MediaSingle referencing that id and
no CodeBlock; when the branch yields nothing, it appends exactly one
CodeBlock with the raw code text, unless the code element's class list
contains the metadata class `language-yaml`, in which case it appends
nothing. -/
theorem preCode_dispatch (env : Env) (node codeEl : HNode)
    (hpre : tagOf node = "PRE")
    (hq : queryFirst (isTag "CODE") node = some codeEl) :
    (∀ fid, mermaidFileId env codeEl = some fid →
      FileAdaptor.traverse env node = [Adf.mediaSingle fid "attachment" "wide"]) ∧
    (mermaidFileId env codeEl = none →
      FileAdaptor.traverse env node =
        if (classesOf codeEl).contains "language-yaml" then []
        else [Adf.codeBlock (textContent codeEl)]) ∧
    (∀ fileData pid fid,
      ((classesOf codeEl).find? (fun c => strStartsWith c "language-")).map
          (fun c => c.drop 9) = some "mermaid" →
      env.fileContent = some fileData →
      truthyStr (env.pageIdOf fileData) = some pid →
      truthyStr (convertMermaidToImage env.mermaidEnv (textContent codeEl) pid) = some fid →
      mermaidFileId env codeEl = some fid) := by
  refine ⟨?_, ?_, ?_⟩
  · intro fid hm
    simp [FileAdaptor.traverse, hpre, hq, hm]
  · intro hm
    simp [FileAdaptor.traverse, hpre, hq, hm]
  · intro fileData pid fid hl hf hp hm
    simp [mermaidFileId, hl, hf, hp, hm]

/-- C3 witness: a concrete mermaid code block in a linked document with a
successful pipeline converts to exactly one wide MediaSingle. -/
theorem preCode_dispatch_inst :
    FileAdaptor.traverse okEnv mermaidPre =
      [Adf.mediaSingle "att-1" "attachment" "wide"] := by
  have h := preCode_dispatch okEnv mermaidPre mermaidCodeEl rfl rfl
  exact h.1 "att-1" rfl

/-- C3 counterexample: a code element whose class list is
`["language-mermaid", "language-yaml"]` has language tag `mermaid` (not
the metadata language `yaml`), and in an environment with no resolvable
page id the pipeline cannot run — yet the dispatch appends nothing
instead of the one CodeBlock the claim requires, because the fallback is
suppressed by the `language-yaml` class membership rather than by the
language tag. -/
theorem preCode_dispatch_cex :
    ((classesOf mermaidYamlCode).find? (fun c => strStartsWith c "language-")).map
        (fun c => c.drop 9) = some "mermaid" ∧
    mermaidFileId nullEnv mermaidYamlCode = none ∧
    FileAdaptor.traverse nullEnv mermaidYamlPre = [] := by
  exact ⟨rfl, rfl, rfl⟩

/-- C4 (amended): an ordered or unordered list is dispatched as a task
list if and only if the count of its `li` descendants (anywhere under the
node, not only item children) equals the count of its checkbox-input
descendants; otherwise it becomes an OrderedList or BulletList per tag. -/
theorem listClassification (env : Env) (node : HNode)
    (h : tagOf node = "OL" ∨ tagOf node = "UL") :
    ((queryAll (isTag "LI") node).length = (queryAll isCheckbox node).length →
      FileAdaptor.traverse env node = [Adf.taskList (taskItemsOf node)]) ∧
    ((queryAll (isTag "LI") node).length ≠ (queryAll isCheckbox node).length →
      FileAdaptor.traverse env node =
        if tagOf node = "OL" then [Adf.orderedList (listItemsOf env node)]
        else [Adf.bulletList (listItemsOf env node)]) := by
  constructor
  · intro he
    rcases h with h | h <;> simp [FileAdaptor.traverse, h, he]
  · intro hne
    rcases h with h | h <;> simp [FileAdaptor.traverse, h, hne]

/-- C4 witness: a three-item flat list with exactly three checkbox
descendants, all inside the first item, is still classified as a task
list — the heuristic counts, it does not match items to checkboxes. -/
theorem listClassification_inst :
    FileAdaptor.traverse nullEnv quirkList =
      [Adf.taskList [("a", false), ("b", false), ("c", false)]] := by
  have h := listClassification nullEnv quirkList (Or.inr rfl)
  exact h.1 rfl

/-- C4 counterexample: a list with exactly one item child but two `li`
descendants and two checkbox descendants — the claim's children-based
count (1 vs 2) says it is not a task list, yet the dispatch classifies it
as one because it counts `li` descendants (2 vs 2). -/
theorem listClassification_cex :
    ((elemChildren nestedList).filter (isTag "LI")).length = 1 ∧
    (queryAll isCheckbox nestedList).length = 2 ∧
    FileAdaptor.traverse nullEnv nestedList = [Adf.taskList [("x", false)]] := by
  exact ⟨rfl, rfl, rfl⟩

/-- C7: the pipeline is total and equals catching every thrown step error
into `none` followed by the well-formed-shape extraction — on a
well-formed response it returns the first attachment's file id, and on
any other response shape or any thrown step error it returns `none`. -/
theorem mermaidPipeline_total (env : MermaidEnv) (mermaidCode pageId : String) :
    convertMermaidToImage env mermaidCode pageId =
      (stepsResponse env mermaidCode pageId).bind wellFormedExtract := by
  unfold convertMermaidToImage stepsResponse
  cases hr : env.render mermaidCode with
  | error e => rfl
  | ok svg =>
    dsimp only
    cases hp : env.parseSvg svg with
    | none => rfl
    | some el =>
      dsimp only
      cases hu : env.upload pageId (xmlHeader ++ env.serialize el) with
      | error e => rfl
      | ok r =>
        cases r with
        | none => rfl
        | some resp =>
          dsimp only
          cases hh : resp.results.head? with
          | none => simp [wellFormedExtract, hh]
          | some rr =>
            obtain ⟨rex⟩ := rr
            cases rex with
            | none => simp [wellFormedExtract, hh]
            | some ext => simp [wellFormedExtract, hh]

/-- C9: the rendered list for `- [x] a` / `- [ ] b` (two items, two
checkboxes) converts to exactly one TaskList with two TaskItems —
`("a", true)` and `("b", false)` — each item's checked flag read from its
`data-task` attribute and its text being its trimmed text content. -/
theorem taskListEndToEnd :
    FileAdaptor.traverse nullEnv c9List =
      [Adf.taskList [("a", true), ("b", false)]] := rfl

/-- C10 (amended): an ordered or unordered list node with zero `li`
descendants and zero checkbox descendants is classified as a task list
(0 = 0) and converts to exactly one TaskList element holding one task
item per element child — never an OrderedList or BulletList; in
particular, when the node also has no element children, that TaskList is
empty. -/
theorem noItemsList_taskList (env : Env) (node : HNode)
    (htag : tagOf node = "OL" ∨ tagOf node = "UL")
    (hli : queryAll (isTag "LI") node = [])
    (hcb : queryAll isCheckbox node = []) :
    FileAdaptor.traverse env node = [Adf.taskList (taskItemsOf node)] ∧
    (elemChildren node = [] →
      FileAdaptor.traverse env node = [Adf.taskList []]) := by
  have hmain : FileAdaptor.traverse env node = [Adf.taskList (taskItemsOf node)] := by
    rcases htag with h | h <;> simp [FileAdaptor.traverse, h, hli, hcb]
  refine ⟨hmain, fun hch => ?_⟩
  rw [hmain, taskItemsOf, hch]
  rfl

/-- C10 witness: a list whose only child is a whitespace text node has no
`li`, checkbox or element children and converts to one empty TaskList. -/
theorem noItemsList_taskList_inst :
    FileAdaptor.traverse nullEnv textOnlyList = [Adf.taskList []] := by
  exact (noItemsList_taskList nullEnv textOnlyList (Or.inr rfl) rfl rfl).2 rfl

/-- C10 counterexample: a list whose sole child is a `DIV` with text `x`
has zero list-item elements and zero checkbox descendants, yet the
dispatch appends a TaskList with one item `("x", false)` — not the empty
TaskList the claim states. -/
theorem noItemsList_taskList_cex :
    queryAll (isTag "LI") divChildList = [] ∧
    queryAll isCheckbox divChildList = [] ∧
    FileAdaptor.traverse nullEnv divChildList = [Adf.taskList [("x", false)]] ∧
    [Adf.taskList [("x", false)]] ≠ [Adf.taskList []] := by
  refine ⟨rfl, rfl, rfl, ?_⟩
  simp
